import Mathlib

/-!
Verification of the `new` scaffolding CLI (TypeScript, Bun runtime).

The development shallowly embeds the three source files:
  * `src/scaffold.ts` — `normalizePackageName`, `isDirectoryEmpty`,
    `applyTemplateTokens` and the orchestrator `scaffoldProject`;
  * the CLI entry file — `parseArgs` and the target/name derivation in `run`.

Strings are modelled as `String`/`List Char`; JavaScript string methods
(`trim`, `toLowerCase` restricted to ASCII case mapping, `replaceAll` with
the ECMAScript `GetSubstitution` escapes in the replacement string,
`startsWith`, `endsWith`) are given structural-recursive models so that every
definition evaluates by `decide`/`rfl`.  Filesystem and subprocess effects are
modelled by an explicit environment (directory listings, exit codes, injected
failures) and an event trace recording the writes the orchestrator performs.
-/

set_option linter.unusedVariables false

namespace NewCli

/-! ### JavaScript string primitives -/

/-- The ECMAScript WhiteSpace and LineTerminator code points: the characters
`String.prototype.trim` removes. -/
def jsWhitespace (c : Char) : Bool :=
  decide (c.toNat = 9 ∨ c.toNat = 10 ∨ c.toNat = 11 ∨ c.toNat = 12 ∨ c.toNat = 13 ∨
    c.toNat = 32 ∨ c.toNat = 160 ∨ c.toNat = 5760 ∨ c.toNat = 8192 ∨ c.toNat = 8193 ∨
    c.toNat = 8194 ∨ c.toNat = 8195 ∨ c.toNat = 8196 ∨ c.toNat = 8197 ∨ c.toNat = 8198 ∨
    c.toNat = 8199 ∨ c.toNat = 8200 ∨ c.toNat = 8201 ∨ c.toNat = 8202 ∨ c.toNat = 8232 ∨
    c.toNat = 8233 ∨ c.toNat = 8239 ∨ c.toNat = 8287 ∨ c.toNat = 12288 ∨ c.toNat = 65279)

/-- Remove the longest suffix of characters satisfying `p`. -/
def dropWhileRight (p : Char → Bool) (l : List Char) : List Char :=
  (l.reverse.dropWhile p).reverse

/-- JS `String.prototype.trim` on the character list. -/
def jsTrimList (l : List Char) : List Char :=
  dropWhileRight jsWhitespace (l.dropWhile jsWhitespace)

/-- JS `String.prototype.trim`. -/
def jsTrim (s : String) : String := ⟨jsTrimList s.toList⟩

/-- JS `String.prototype.toLowerCase`, ASCII case mapping. -/
def toLowerJs (c : Char) : Char :=
  if 65 ≤ c.toNat ∧ c.toNat ≤ 90 then Char.ofNat (c.toNat + 32) else c

/-- Membership in the character class `[a-z0-9-_]` of the normalization regex. -/
def allowedChar (c : Char) : Bool :=
  decide ((97 ≤ c.toNat ∧ c.toNat ≤ 122) ∨ (48 ≤ c.toNat ∧ c.toNat ≤ 57) ∨
    c.toNat = 45 ∨ c.toNat = 95)

/-- One step of `.replace(/[^a-z0-9-_]/g, "-")`: a character outside the class
becomes a hyphen. -/
def hyphenate (c : Char) : Char := if allowedChar c then c else '-'

def isHyphen (c : Char) : Bool := c == '-'

/-- The second replace of the source (regex: one-or-more hyphens become one):
collapse every run of hyphens to a single hyphen. -/
def collapseHyphens : List Char → List Char
  | [] => []
  | [c] => [c]
  | a :: b :: rest =>
    if a = '-' ∧ b = '-' then collapseHyphens (b :: rest)
    else a :: collapseHyphens (b :: rest)

/-- Drop one leading hyphen, as the `^-` alternative of `/^-|-$/g` does. -/
def stripOneLeading (l : List Char) : List Char :=
  match l with
  | [] => []
  | c :: rest => if c = '-' then rest else c :: rest

/-- Drop one trailing hyphen, as the `-$` alternative of `/^-|-$/g` does. -/
def stripOneTrailing (l : List Char) : List Char :=
  (stripOneLeading l.reverse).reverse

/-- The third replace of the source (regex anchored at either end): at most
one hyphen is removed at each end. -/
def stripEdgeHyphens (l : List Char) : List Char :=
  stripOneTrailing (stripOneLeading l)

/-- Drop every leading and every trailing hyphen. -/
def stripAllHyphens (l : List Char) : List Char :=
  dropWhileRight isHyphen (l.dropWhile isHyphen)

/-- Embeds `normalizePackageName` (src/scaffold.ts:22-31): trim, lowercase,
replace every character outside `[a-z0-9-_]` with `-`, collapse hyphen runs,
strip the edge hyphens (`/^-|-$/g`), and fall back to `"bun-app"` when the
result is empty (`|| "bun-app"` on the empty string). -/
def normalizePackageName (s : String) : String :=
  let step := stripEdgeHyphens (collapseHyphens
    ((jsTrimList s.toList).map (fun c => hyphenate (toLowerJs c))))
  if step.isEmpty then "bun-app" else ⟨step⟩

/-- The claim's wording of the normalization, for comparison with the source
function: lowercase the input, replace every run of characters outside
`[a-z0-9-_]` with a single hyphen (realised as per-character replacement
followed by collapsing repeated hyphens), strip all leading and trailing
hyphens, and fall back to the default name when empty. -/
def claimNormalizePackageName (s : String) : String :=
  let step := stripAllHyphens (collapseHyphens
    (s.toList.map (fun c => hyphenate (toLowerJs c))))
  if step.isEmpty then "bun-app" else ⟨step⟩

/-- No two adjacent hyphens. -/
def NoDouble (l : List Char) : Prop :=
  l.Chain' (fun a b => ¬(a = '-' ∧ b = '-'))

/-! ### POSIX path model (`node:path` `resolve`, `dirname`, `basename`,
`extname` on resolved paths) -/

/-- Split a character list at every `/`. -/
def splitOnSlash : List Char → List (List Char)
  | [] => [[]]
  | c :: rest =>
    if c = '/' then [] :: splitOnSlash rest
    else
      match splitOnSlash rest with
      | [] => [[c]]
      | h :: t => (c :: h) :: t

/-- The non-empty `/`-separated components of a path string. -/
def pathComponents (s : String) : List String :=
  ((splitOnSlash s.toList).filter (fun l => !l.isEmpty)).map (fun l => ⟨l⟩)

/-- Resolve `.` and `..` components against an absolute root. -/
def normalizeComponents (comps : List String) : List String :=
  comps.foldl
    (fun acc comp =>
      if comp = "." then acc
      else if comp = ".." then acc.dropLast
      else acc ++ [comp]) []

/-- JS `String.prototype.startsWith`. -/
def jsStartsWith (s pre : String) : Bool := pre.toList.isPrefixOf s.toList

/-- JS `String.prototype.endsWith`. -/
def jsEndsWith (s post : String) : Bool := post.toList.isSuffixOf s.toList

/-- POSIX `path.resolve(cwd, p)` for an absolute `cwd`. -/
def resolvePath (cwd p : String) : String :=
  let raw := if jsStartsWith p "/" then p else cwd ++ "/" ++ p
  "/" ++ String.intercalate "/" (normalizeComponents (pathComponents raw))

/-- POSIX `path.dirname` on an already-resolved absolute path. -/
def dirname (s : String) : String :=
  "/" ++ String.intercalate "/" (pathComponents s).dropLast

/-- POSIX `path.basename` on an already-resolved absolute path. -/
def basename (s : String) : String :=
  match (pathComponents s).getLast? with
  | some c => c
  | none => "/"

/-- POSIX `path.extname` applied to a basename's characters: the suffix from the
last dot, empty for a dotfile (the only dot is the first character), for a
dotless name, and for `".."`. -/
def extnameOfBase (l : List Char) : List Char :=
  if l = ['.', '.'] then []
  else
    let pre := l.reverse.takeWhile (fun c => c != '.')
    if pre.length = l.length then []
    else if pre.length + 1 = l.length then []
    else '.' :: pre.reverse

/-- POSIX `path.extname`. -/
def extname (s : String) : String := ⟨extnameOfBase (basename s).toList⟩

/-! ### JS `replaceAll`: string pattern, string replacement with
`GetSubstitution` -/

/-- ECMAScript `GetSubstitution` for a string pattern and string replacement:
the replacement template is scanned for the escapes `$$` (a dollar), `$&`
(the matched substring — for a string pattern, the pattern itself), a dollar
followed by a backquote (the part of the original string before the match)
and a dollar followed by a single quote (the part after the match); every
other dollar, including `$n` with no capture groups and `$<` with no named
captures, stays literal.  `matched`, `before` and `after` are the match's
context in the original string. -/
def getSubstitution (matched before after : List Char) : List Char → List Char
  | [] => []
  | c :: rest =>
    if c = '$' then
      match rest with
      | [] => ['$']
      | d :: rest2 =>
        if d = '$' then '$' :: getSubstitution matched before after rest2
        else if d = '&' then matched ++ getSubstitution matched before after rest2
        else if d = Char.ofNat 96 then before ++ getSubstitution matched before after rest2
        else if d = Char.ofNat 39 then after ++ getSubstitution matched before after rest2
        else c :: getSubstitution matched before after (d :: rest2)
    else c :: getSubstitution matched before after rest

/-- Left-to-right non-overlapping replacement with `GetSubstitution` applied
to the replacement at every match; `pos` is the index in `orig` at which the
remaining input starts, and `fuel` (initially the input length) makes the
recursion structural. -/
def replaceAllAux (pat rep orig : List Char) : Nat → Nat → List Char → List Char
  | _, _, [] => []
  | 0, _, l => l
  | fuel + 1, pos, c :: rest =>
    if pat.isPrefixOf (c :: rest) then
      getSubstitution pat (orig.take pos) (orig.drop (pos + pat.length)) rep ++
        replaceAllAux pat rep orig fuel (pos + pat.length) ((c :: rest).drop pat.length)
    else
      c :: replaceAllAux pat rep orig fuel (pos + 1) rest

/-- JS `s.replaceAll(pat, rep)` for a non-empty string `pat` and a plain
string `rep`, to which `GetSubstitution` applies. -/
def replaceAll (s pat rep : String) : String :=
  ⟨replaceAllAux pat.toList rep.toList s.toList s.toList.length 0 s.toList⟩

/-- The claim's model of the substitution: purely literal insertion of the
replacement at every match, without the `GetSubstitution` escapes. -/
def claimReplaceAllAux (pat rep : List Char) : Nat → List Char → List Char
  | _, [] => []
  | 0, l => l
  | fuel + 1, c :: rest =>
    if pat.isPrefixOf (c :: rest) then
      rep ++ claimReplaceAllAux pat rep fuel ((c :: rest).drop pat.length)
    else
      c :: claimReplaceAllAux pat rep fuel rest

/-- Literal-insertion `replaceAll`, as the claim words it. -/
def claimReplaceAll (s pat rep : String) : String :=
  ⟨claimReplaceAllAux pat.toList rep.toList s.toList.length s.toList⟩

/-! ### Template-token rewriting (src/scaffold.ts:111-144) -/

/-- The extension set `textExtensions` of `applyTemplateTokens`. -/
def textExtensions : List String :=
  [".json", ".ts", ".tsx", ".js", ".jsx", ".md", ".txt", ".toml", ".yaml", ".yml"]

/-- The guard of `applyTemplateTokens`: a file is rewritten when its extension
is in the text set or its path ends in `".gitignore"`. -/
def isTemplateFile (filePath : String) : Bool :=
  textExtensions.contains (extname filePath) || jsEndsWith filePath ".gitignore"

/-- The two `replaceAll` calls of `applyTemplateTokens`. -/
def substituteTokens (content projectName packageName : String) : String :=
  replaceAll (replaceAll content "__PROJECT_NAME__" projectName)
    "__PACKAGE_NAME__" packageName

/-- The claim's wording of the token substitution: both tokens replaced by
purely literal insertion. -/
def claimSubstituteTokens (content projectName packageName : String) : String :=
  claimReplaceAll (claimReplaceAll content "__PROJECT_NAME__" projectName)
    "__PACKAGE_NAME__" packageName

/-- Outcome per file: final content and whether `Bun.write` was called. -/
structure FileOutcome where
  path : String
  content : String
  written : Bool
  deriving Repr, DecidableEq

/-- Embeds `applyTemplateTokens` (src/scaffold.ts:111-144) over the list of
(path, content) pairs of the copied files: non-template files are returned
untouched, template files get both tokens replaced and are written back only
when the content changed. -/
def applyTemplateTokens (files : List (String × String)) (projectName : String) :
    List FileOutcome :=
  let packageName := normalizePackageName projectName
  files.map fun pc =>
    if isTemplateFile pc.1 then
      let next := substituteTokens pc.2 projectName packageName
      { path := pc.1, content := next, written := decide (¬next = pc.2) }
    else
      { path := pc.1, content := pc.2, written := false }

/-! ### Filesystem reads and `isDirectoryEmpty` (src/scaffold.ts:33-44) -/

inductive FsError where
  | enoent
  | other (msg : String)
  deriving Repr, DecidableEq

/-- The filesystem as the orchestrator reads it: `readdir` per path. -/
structure Fs where
  readdir : String → Except FsError (List String)

/-- Embeds `isDirectoryEmpty`: an `ENOENT` failure counts as empty, any other
`readdir` error is rethrown. -/
def isDirectoryEmpty (fs : Fs) (dir : String) : Except FsError Bool :=
  match fs.readdir dir with
  | .ok entries => .ok entries.isEmpty
  | .error .enoent => .ok true
  | .error (.other msg) => .error (.other msg)

/-! ### The scaffold orchestrator (src/scaffold.ts:146-200) -/

def DEFAULT_TEMPLATE_REPO : String := "https://github.com/rayhanadev/fresh"

structure ScaffoldOptions where
  force : Option Bool
  install : Option Bool
  projectName : String
  templateRepo : Option String
  targetDir : String

structure ScaffoldResult where
  createdFiles : List String
  installedDependencies : Bool
  projectName : String
  targetDir : String
  deriving Repr, DecidableEq

/-- The filesystem/subprocess writes the orchestrator performs, in order. -/
inductive FsEvent where
  | mkdirp (path : String)
  | mkdtemp (path : String)
  | gitClone (repo dest : String)
  | rmrf (path : String)
  | copyTree (src dst : String)
  | rewriteTokens (files : List String) (projectName : String)
  | runInstall (dir : String)
  deriving Repr, DecidableEq

/-- The environment a run of `scaffoldProject` observes: the current working
directory, directory listings, the staging-directory suffix `mkdtemp` picks,
the template's file list (paths relative to the clone root), exit codes of the
two subprocesses, and injected failures of the copy and token-rewrite steps.
`mkdir`/`mkdtemp` themselves are assumed to succeed (they fail before the
staging directory exists). -/
structure ScaffoldEnv where
  cwd : String
  fs : Fs
  mkdtempSuffix : String
  cloneExitCode : Nat
  cloneStderr : String
  templateFiles : List String
  cpError : Option String
  tokenError : Option String
  installExitCode : Nat

def cloneErrorMessage (exitCode : Nat) (stderr : String) : String :=
  "git clone failed with exit code " ++ toString exitCode ++ "." ++
    (if stderr.length > 0 then " " ++ stderr else "")

def installErrorMessage (exitCode : Nat) : String :=
  "bun install failed with exit code " ++ toString exitCode ++ "."

def fsErrorMessage : FsError → String
  | .enoent => "ENOENT"
  | .other msg => msg

def notEmptyMessage (targetDir : String) : String :=
  "Target directory is not empty: " ++ targetDir ++ ". Use --force to overwrite."

/-- The staging directory: `mkdtemp(resolve(dirname(targetDir), ".new-template-"))`. -/
def stagingDirOf (env : ScaffoldEnv) (targetDir : String) : String :=
  resolvePath (dirname targetDir) ".new-template-" ++ env.mkdtempSuffix

/-- The `try`-block of `scaffoldProject` (src/scaffold.ts:167-196): clone,
strip `.git`, list and copy the template, rewrite tokens, optionally install. -/
def scaffoldBody (env : ScaffoldEnv) (targetDir projectName : String)
    (install : Bool) (templateRepo stagingDir : String) :
    Except String ScaffoldResult × List FsEvent :=
  if env.cloneExitCode ≠ 0 then
    (.error (cloneErrorMessage env.cloneExitCode env.cloneStderr),
      [.gitClone templateRepo stagingDir])
  else
    let evs := [FsEvent.gitClone templateRepo stagingDir,
                FsEvent.rmrf (resolvePath stagingDir ".git")]
    let createdFiles := env.templateFiles.map (fun rel => resolvePath targetDir rel)
    match env.cpError with
    | some msg => (.error msg, evs)
    | none =>
      let evs := evs ++ [FsEvent.copyTree stagingDir targetDir]
      match env.tokenError with
      | some msg => (.error msg, evs)
      | none =>
        let evs := evs ++ [FsEvent.rewriteTokens createdFiles projectName]
        if install then
          let evs := evs ++ [FsEvent.runInstall targetDir]
          if env.installExitCode ≠ 0 then
            (.error (installErrorMessage env.installExitCode), evs)
          else
            (.ok ⟨createdFiles, true, projectName, targetDir⟩, evs)
        else
          (.ok ⟨createdFiles, false, projectName, targetDir⟩, evs)

/-- Embeds `scaffoldProject` (src/scaffold.ts:146-200): resolve the options
and their defaults, reject an empty project name, reject a non-empty target
without force, create the target and the staging directory, run the
`try`-body, and remove the staging directory on every path out of it
(the `finally` block). -/
def scaffoldProject (env : ScaffoldEnv) (options : ScaffoldOptions) :
    Except String ScaffoldResult × List FsEvent :=
  let targetDir := resolvePath env.cwd options.targetDir
  let projectName := jsTrim options.projectName
  let force := options.force.getD false
  let install := options.install.getD true
  let templateRepo := options.templateRepo.getD DEFAULT_TEMPLATE_REPO
  if projectName.length = 0 then
    (.error "Project name must not be empty.", [])
  else
    match isDirectoryEmpty env.fs targetDir with
    | .error e => (.error (fsErrorMessage e), [])
    | .ok isEmpty =>
      if !isEmpty && !force then
        (.error (notEmptyMessage targetDir), [])
      else
        let stagingDir := stagingDirOf env targetDir
        let body := scaffoldBody env targetDir projectName install templateRepo stagingDir
        (body.1,
          [FsEvent.mkdirp targetDir, FsEvent.mkdtemp stagingDir] ++
            body.2 ++ [FsEvent.rmrf stagingDir])

/-! ### The argument parser of the CLI entry file -/

structure CliOptions where
  force : Bool
  help : Bool
  install : Bool
  pathArg : Option String
  projectNameArg : Option String
  version : Bool
  deriving Repr, DecidableEq

def initialCliOptions : CliOptions :=
  { force := false, help := false, install := true,
    pathArg := none, projectNameArg := none, version := false }

/-- JS `arg.slice(arg.indexOf("=") + 1)`. -/
def sliceAfterFirstEq (s : String) : String :=
  if s.toList.contains '=' then ⟨(s.toList.dropWhile (fun c => c != '=')).drop 1⟩
  else s

/-- The `for` loop of `parseArgs` (CLI entry file, lines 34-94). -/
def parseLoop : CliOptions → List String → Except String CliOptions
  | o, [] => .ok o
  | o, arg :: rest =>
    if arg = "--help" ∨ arg = "-h" then parseLoop { o with help := true } rest
    else if arg = "--version" ∨ arg = "-v" then parseLoop { o with version := true } rest
    else if arg = "--force" ∨ arg = "-f" then parseLoop { o with force := true } rest
    else if arg = "--no-install" then parseLoop { o with install := false } rest
    else if arg = "--path" ∨ arg = "-p" then
      match rest with
      | [] => .error ("Missing value for " ++ arg ++ ".")
      | next :: rest2 =>
        if jsStartsWith next "-" then .error ("Missing value for " ++ arg ++ ".")
        else if (jsTrim next).length = 0 then .error "Path must not be empty."
        else if o.pathArg ≠ none then .error "Path can only be provided once."
        else parseLoop { o with pathArg := some next } rest2
    else if jsStartsWith arg "--path=" ∨ jsStartsWith arg "-p=" then
      let value := sliceAfterFirstEq arg
      if (jsTrim value).length = 0 then .error "Path must not be empty."
      else if o.pathArg ≠ none then .error "Path can only be provided once."
      else parseLoop { o with pathArg := some value } rest
    else if jsStartsWith arg "-" then .error ("Unknown option: " ++ arg)
    else if o.projectNameArg ≠ none then .error "Only one project name can be provided."
    else parseLoop { o with projectNameArg := some arg } rest

/-- Embeds `parseArgs` (CLI entry file, lines 24-101): the loop followed by
the mutual-exclusion check on the positional name and the path option. -/
def parseArgs (argv : List String) : Except String CliOptions :=
  match parseLoop initialCliOptions argv with
  | .error e => .error e
  | .ok o =>
    if o.projectNameArg ≠ none ∧ o.pathArg ≠ none then
      .error "Use either a project name argument or --path, not both."
    else .ok o

/-- The target-directory/project-name derivation of `run` (CLI entry file,
lines 141-150): under `--path` or a positional argument the target is the
argument resolved against the working directory and the project name its
basename.  `none` stands for the no-argument interactive flow, which this
development does not model. -/
def cliTargetAndName (cwd : String) (o : CliOptions) : Option (String × String) :=
  match o.pathArg with
  | some p => some (resolvePath cwd p, basename (resolvePath cwd p))
  | none =>
    match o.projectNameArg with
    | some n => some (resolvePath cwd n, basename (resolvePath cwd n))
    | none => none

/-! ### Concrete fixtures for evaluating the model -/

/-- A filesystem with an absent `/h/proj` and every other directory
non-empty. -/
def witnessFs : Fs :=
  ⟨fun d => if d = "/h/proj" then .error .enoent else .ok ["existing.txt"]⟩

def witnessEnv : ScaffoldEnv :=
  { cwd := "/h", fs := witnessFs, mkdtempSuffix := "Ab12Cd", cloneExitCode := 0,
    cloneStderr := "", templateFiles := ["package.json", "src/index.ts"],
    cpError := none, tokenError := none, installExitCode := 0 }

def witnessOptions : ScaffoldOptions :=
  { force := none, install := some false, projectName := "My App!",
    templateRepo := none, targetDir := "proj" }

def witnessOptionsOther : ScaffoldOptions :=
  { witnessOptions with targetDir := "other" }

def witnessFiles : List (String × String) :=
  [("/t/pkg.json", "name=__PROJECT_NAME__ pkg=__PACKAGE_NAME__"),
   ("/t/logo.png", "binary")]

/-! ## Theorems -/

/-! ### Character-level facts for the package-name normalization -/

theorem ws_cases {c : Char} (h : jsWhitespace c = true) :
    c.toNat = 9 ∨ c.toNat = 10 ∨ c.toNat = 11 ∨ c.toNat = 12 ∨ c.toNat = 13 ∨
    c.toNat = 32 ∨ c.toNat = 160 ∨ c.toNat = 5760 ∨ c.toNat = 8192 ∨ c.toNat = 8193 ∨
    c.toNat = 8194 ∨ c.toNat = 8195 ∨ c.toNat = 8196 ∨ c.toNat = 8197 ∨ c.toNat = 8198 ∨
    c.toNat = 8199 ∨ c.toNat = 8200 ∨ c.toNat = 8201 ∨ c.toNat = 8202 ∨ c.toNat = 8232 ∨
    c.toNat = 8233 ∨ c.toNat = 8239 ∨ c.toNat = 8287 ∨ c.toNat = 12288 ∨ c.toNat = 65279 := by
  simpa [jsWhitespace] using h

theorem hyphenate_toLowerJs_of_ws {c : Char} (h : jsWhitespace c = true) :
    hyphenate (toLowerJs c) = '-' := by
  have hc := ws_cases h
  have hlow : toLowerJs c = c := by
    unfold toLowerJs
    rw [if_neg]
    omega
  have hal : allowedChar c = false := by
    unfold allowedChar
    simp only [decide_eq_false_iff_not]
    omega
  rw [hlow]
  simp [hyphenate, hal]

theorem allowedChar_hyphenate (c : Char) : allowedChar (hyphenate c) = true := by
  unfold hyphenate
  by_cases h : allowedChar c = true
  · simp [h]
  · simp [h]
    decide

theorem not_ws_of_allowed {c : Char} (h : allowedChar c = true) :
    jsWhitespace c = false := by
  have hc : (97 ≤ c.toNat ∧ c.toNat ≤ 122) ∨ (48 ≤ c.toNat ∧ c.toNat ≤ 57) ∨
      c.toNat = 45 ∨ c.toNat = 95 := by simpa [allowedChar] using h
  unfold jsWhitespace
  simp only [decide_eq_false_iff_not]
  omega

theorem toLowerJs_of_allowed {c : Char} (h : allowedChar c = true) :
    toLowerJs c = c := by
  have hc : (97 ≤ c.toNat ∧ c.toNat ≤ 122) ∨ (48 ≤ c.toNat ∧ c.toNat ≤ 57) ∨
      c.toNat = 45 ∨ c.toNat = 95 := by simpa [allowedChar] using h
  unfold toLowerJs
  rw [if_neg]
  omega

theorem hyphenate_of_allowed {c : Char} (h : allowedChar c = true) :
    hyphenate c = c := by
  simp [hyphenate, h]

/-! ### `dropWhileRight` and hyphen-collapse lemmas -/

theorem dropWhileRight_cons (p : Char → Bool) (a : Char) (l : List Char) :
    dropWhileRight p (a :: l) =
      if dropWhileRight p l = [] then (if p a then [] else [a])
      else a :: dropWhileRight p l := by
  unfold dropWhileRight
  rw [List.reverse_cons, List.dropWhile_append]
  by_cases h : l.reverse.dropWhile p = []
  · rw [h]
    simp only [List.isEmpty_nil, if_true, List.reverse_nil, if_pos rfl]
    by_cases hp : p a
    · simp [hp]
    · simp [hp]
  · have h2 : (l.reverse.dropWhile p).isEmpty = false := by
      simpa [List.isEmpty_iff] using h
    have h3 : ¬(l.reverse.dropWhile p).reverse = [] := by
      simpa [List.reverse_eq_nil_iff] using h
    rw [h2]
    simp only [Bool.false_eq_true, if_false, if_neg h3, List.reverse_append,
      List.reverse_cons, List.reverse_nil, List.nil_append, List.singleton_append]

theorem dropWhile_head_not {p : Char → Bool} {l : List Char} {a : Char}
    (h : (l.dropWhile p).head? = some a) : p a = false := by
  have := List.head?_dropWhile_not p l
  rw [h] at this
  simpa using this

theorem collapseHyphens_cons_cons (a b : Char) (rest : List Char) :
    collapseHyphens (a :: b :: rest) =
      if a = '-' ∧ b = '-' then collapseHyphens (b :: rest)
      else a :: collapseHyphens (b :: rest) := rfl

theorem collapseHyphens_head? : ∀ l : List Char, (collapseHyphens l).head? = l.head?
  | [] => rfl
  | [_] => rfl
  | a :: b :: rest => by
    unfold collapseHyphens
    by_cases h : a = '-' ∧ b = '-'
    · rw [if_pos h, collapseHyphens_head? (b :: rest)]
      simp [h.1, h.2]
    · rw [if_neg h]
      rfl

theorem collapseHyphens_noDouble : ∀ l : List Char, NoDouble (collapseHyphens l)
  | [] => List.chain'_nil
  | [c] => by simp [collapseHyphens, NoDouble]
  | a :: b :: rest => by
    unfold collapseHyphens
    by_cases h : a = '-' ∧ b = '-'
    · rw [if_pos h]
      exact collapseHyphens_noDouble (b :: rest)
    · rw [if_neg h]
      have ih := collapseHyphens_noDouble (b :: rest)
      rw [NoDouble, List.chain'_cons']
      refine ⟨?_, ih⟩
      intro y hy
      rw [collapseHyphens_head? (b :: rest)] at hy
      simp only [List.head?_cons, Option.mem_def, Option.some.injEq] at hy
      subst hy
      exact h

theorem mem_collapseHyphens : ∀ {l : List Char} {x : Char},
    x ∈ collapseHyphens l → x ∈ l
  | [], _, h => h
  | [c], _, h => h
  | a :: b :: rest, x, h => by
    unfold collapseHyphens at h
    by_cases hab : a = '-' ∧ b = '-'
    · rw [if_pos hab] at h
      exact List.mem_cons_of_mem a (mem_collapseHyphens h)
    · rw [if_neg hab] at h
      rcases List.mem_cons.mp h with h1 | h2
      · exact h1 ▸ List.mem_cons_self a _
      · exact List.mem_cons_of_mem a (mem_collapseHyphens h2)

theorem collapseHyphens_eq_self : ∀ {l : List Char}, NoDouble l → collapseHyphens l = l
  | [], _ => rfl
  | [_], _ => rfl
  | a :: b :: rest, h => by
    have hab : ¬(a = '-' ∧ b = '-') := (List.chain'_cons.mp h).1
    have ht : NoDouble (b :: rest) := (List.chain'_cons.mp h).2
    unfold collapseHyphens
    rw [if_neg hab, collapseHyphens_eq_self ht]

theorem dropWhile_collapse_cons_hyphen (l : List Char) :
    (collapseHyphens ('-' :: l)).dropWhile isHyphen =
    (collapseHyphens l).dropWhile isHyphen := by
  cases l with
  | nil => rfl
  | cons c t =>
    by_cases hc : c = '-'
    · subst hc
      rw [collapseHyphens_cons_cons, if_pos ⟨rfl, rfl⟩]
    · rw [collapseHyphens_cons_cons, if_neg (by rintro ⟨-, h⟩; exact hc h),
        List.dropWhile_cons]
      simp [isHyphen]

theorem dropWhile_collapse_replicate (a : Nat) (l : List Char) :
    (collapseHyphens (List.replicate a '-' ++ l)).dropWhile isHyphen =
    (collapseHyphens l).dropWhile isHyphen := by
  induction a with
  | zero => simp
  | succ n ih =>
    rw [List.replicate_succ, List.cons_append, dropWhile_collapse_cons_hyphen, ih]

theorem dWR_collapse_append_hyphen : ∀ l : List Char,
    dropWhileRight isHyphen (collapseHyphens (l ++ ['-'])) =
    dropWhileRight isHyphen (collapseHyphens l)
  | [] => rfl
  | [c] => by
    by_cases hc : c = '-'
    · subst hc
      rfl
    · have hb : isHyphen c = false := by
        simp [isHyphen, hc]
      show dropWhileRight isHyphen (collapseHyphens [c, '-']) = _
      have h1 : collapseHyphens [c, '-'] = [c, '-'] := by
        rw [collapseHyphens_cons_cons, if_neg (by rintro ⟨h, -⟩; exact hc h)]
        rfl
      rw [h1]
      show dropWhileRight isHyphen [c, '-'] = dropWhileRight isHyphen [c]
      simp [dropWhileRight, List.dropWhile, hb, isHyphen]
  | a :: b :: rest => by
    have ih := dWR_collapse_append_hyphen (b :: rest)
    by_cases h : a = '-' ∧ b = '-'
    · show dropWhileRight isHyphen (collapseHyphens (a :: b :: (rest ++ ['-']))) = _
      conv_lhs => rw [collapseHyphens_cons_cons, if_pos h]
      conv_rhs => rw [collapseHyphens_cons_cons, if_pos h]
      exact ih
    · show dropWhileRight isHyphen (collapseHyphens (a :: b :: (rest ++ ['-']))) = _
      conv_lhs => rw [collapseHyphens_cons_cons, if_neg h]
      conv_rhs => rw [collapseHyphens_cons_cons, if_neg h]
      rw [dropWhileRight_cons, dropWhileRight_cons]
      rw [show collapseHyphens (b :: (rest ++ ['-'])) = collapseHyphens ((b :: rest) ++ ['-']) from rfl, ih]

theorem dWR_collapse_replicate (b : Nat) (l : List Char) :
    dropWhileRight isHyphen (collapseHyphens (l ++ List.replicate b '-')) =
    dropWhileRight isHyphen (collapseHyphens l) := by
  induction b with
  | zero => simp
  | succ n ih =>
    rw [List.replicate_succ', ← List.append_assoc, dWR_collapse_append_hyphen, ih]

theorem dropWhile_dWR_comm (p : Char → Bool) : ∀ l : List Char,
    (dropWhileRight p l).dropWhile p = dropWhileRight p (l.dropWhile p)
  | [] => rfl
  | c :: t => by
    have ih := dropWhile_dWR_comm p t
    rw [dropWhileRight_cons]
    by_cases h : dropWhileRight p t = []
    · rw [if_pos h]
      by_cases hp : p c
      · rw [if_pos hp]
        simp [List.dropWhile_cons, hp, ← ih, h]
      · rw [if_neg hp]
        simp [List.dropWhile_cons, hp, dropWhileRight_cons, h]
    · rw [if_neg h]
      by_cases hp : p c
      · simp [List.dropWhile_cons, hp, ih]
      · simp [List.dropWhile_cons, hp, dropWhileRight_cons, h]

/-! ### Strip-hyphen equivalences on collapse-normalised lists -/

theorem dropWhile_eq_self_of_head {p : Char → Bool} {l : List Char}
    (h : ∀ y, l.head? = some y → p y = false) : l.dropWhile p = l := by
  cases l with
  | nil => rfl
  | cons d t =>
    have hd := h d rfl
    simp [List.dropWhile_cons, hd]

theorem stripOneLeading_eq_dropWhile_of_noDouble {l : List Char} (h : NoDouble l) :
    stripOneLeading l = l.dropWhile isHyphen := by
  cases l with
  | nil => rfl
  | cons c t =>
    show (if c = '-' then t else c :: t) = _
    by_cases hc : c = '-'
    · subst hc
      rw [if_pos rfl, List.dropWhile_cons]
      have hh : isHyphen '-' = true := rfl
      rw [hh, if_pos rfl]
      refine (dropWhile_eq_self_of_head ?_).symm
      intro y hy
      have hr := (List.chain'_cons'.mp h).1 y (by simpa using hy)
      have hy' : ¬y = '-' := fun he => hr ⟨rfl, he⟩
      simp [isHyphen, hy']
    · rw [if_neg hc, List.dropWhile_cons]
      simp [isHyphen, hc]

theorem NoDouble_reverse {l : List Char} (h : NoDouble l) : NoDouble l.reverse := by
  rw [NoDouble, List.chain'_reverse]
  exact h.imp (fun a b hab => by rintro ⟨h1, h2⟩; exact hab ⟨h2, h1⟩)

theorem stripOneTrailing_eq_dWR_of_noDouble {l : List Char} (h : NoDouble l) :
    stripOneTrailing l = dropWhileRight isHyphen l := by
  unfold stripOneTrailing dropWhileRight
  rw [stripOneLeading_eq_dropWhile_of_noDouble (NoDouble_reverse h)]

theorem NoDouble_stripOneLeading {l : List Char} (h : NoDouble l) :
    NoDouble (stripOneLeading l) := by
  cases l with
  | nil => exact h
  | cons c t =>
    show NoDouble (if c = '-' then t else c :: t)
    by_cases hc : c = '-'
    · rw [if_pos hc]
      exact (List.chain'_cons'.mp h).2
    · rw [if_neg hc]
      exact h

theorem stripEdge_eq_stripAll_of_noDouble {l : List Char} (h : NoDouble l) :
    stripEdgeHyphens l = stripAllHyphens l := by
  have h1 : NoDouble (l.dropWhile isHyphen) := by
    rw [← stripOneLeading_eq_dropWhile_of_noDouble h]
    exact NoDouble_stripOneLeading h
  unfold stripEdgeHyphens stripAllHyphens
  rw [stripOneLeading_eq_dropWhile_of_noDouble h,
    stripOneTrailing_eq_dWR_of_noDouble h1]

/-! ### Trim decomposition: trimming only pads the hyphenated list -/

theorem map_hyphenate_of_ws {u : List Char} (h : ∀ x ∈ u, jsWhitespace x = true) :
    u.map (fun c => hyphenate (toLowerJs c)) = List.replicate u.length '-' := by
  induction u with
  | nil => rfl
  | cons c t ih =>
    rw [List.map_cons, hyphenate_toLowerJs_of_ws (h c (List.mem_cons_self c t)),
      List.length_cons, List.replicate_succ,
      ih (fun x hx => h x (List.mem_cons_of_mem c hx))]

theorem jsTrimList_decomp (l : List Char) :
    ∃ pre suf : List Char, l = pre ++ jsTrimList l ++ suf ∧
      (∀ x ∈ pre, jsWhitespace x = true) ∧ (∀ x ∈ suf, jsWhitespace x = true) := by
  refine ⟨l.takeWhile jsWhitespace,
    ((l.dropWhile jsWhitespace).reverse.takeWhile jsWhitespace).reverse, ?_, ?_, ?_⟩
  · conv_lhs => rw [← List.takeWhile_append_dropWhile jsWhitespace l]
    rw [List.append_assoc]
    congr 1
    conv_lhs =>
      rw [← List.reverse_reverse (l.dropWhile jsWhitespace),
        ← List.takeWhile_append_dropWhile jsWhitespace (l.dropWhile jsWhitespace).reverse,
        List.reverse_append]
    rfl
  · exact fun x hx => List.mem_takeWhile_imp hx
  · intro x hx
    rw [List.mem_reverse] at hx
    exact List.mem_takeWhile_imp hx

theorem stripAll_collapse_pad (a b : Nat) (m : List Char) :
    stripAllHyphens (collapseHyphens
      (List.replicate a '-' ++ m ++ List.replicate b '-')) =
    stripAllHyphens (collapseHyphens m) := by
  unfold stripAllHyphens
  rw [List.append_assoc, dropWhile_collapse_replicate, ← dropWhile_dWR_comm,
    dWR_collapse_replicate, dropWhile_dWR_comm]

/-- The source normalization equals the claim's description of it: the `trim`
the source performs first is absorbed by hyphen replacement and stripping, and
stripping one hyphen per end equals stripping them all after collapsing. -/
theorem normalizePackageName_eq_claim (s : String) :
    normalizePackageName s = claimNormalizePackageName s := by
  have key : stripEdgeHyphens (collapseHyphens
      ((jsTrimList s.toList).map (fun c => hyphenate (toLowerJs c)))) =
      stripAllHyphens (collapseHyphens
        (s.toList.map (fun c => hyphenate (toLowerJs c)))) := by
    obtain ⟨pre, suf, hdec, hpre, hsuf⟩ := jsTrimList_decomp s.toList
    have hmap : s.toList.map (fun c => hyphenate (toLowerJs c)) =
        List.replicate pre.length '-' ++
          (jsTrimList s.toList).map (fun c => hyphenate (toLowerJs c)) ++
          List.replicate suf.length '-' := by
      conv_lhs => rw [hdec]
      rw [List.map_append, List.map_append, map_hyphenate_of_ws hpre,
        map_hyphenate_of_ws hsuf]
    rw [stripEdge_eq_stripAll_of_noDouble (collapseHyphens_noDouble _), hmap,
      stripAll_collapse_pad]
  simp only [normalizePackageName, claimNormalizePackageName]
  rw [key]

/-! ### Output characterization of the normalization -/

theorem toList_mk (l : List Char) : (⟨l⟩ : String).toList = l := rfl

theorem mem_dWR {p : Char → Bool} {l : List Char} {x : Char}
    (h : x ∈ dropWhileRight p l) : x ∈ l := by
  unfold dropWhileRight at h
  rw [List.mem_reverse] at h
  exact List.mem_reverse.mp ((List.dropWhile_sublist p).subset h)

theorem mem_stripAllHyphens {l : List Char} {x : Char}
    (h : x ∈ stripAllHyphens l) : x ∈ l := by
  unfold stripAllHyphens at h
  exact (List.dropWhile_sublist _).subset (mem_dWR h)

theorem step_all_allowed (s : String) :
    ∀ x ∈ stripAllHyphens (collapseHyphens
      (s.toList.map (fun c => hyphenate (toLowerJs c)))), allowedChar x = true := by
  intro x hx
  have h1 := mem_collapseHyphens (mem_stripAllHyphens hx)
  rw [List.mem_map] at h1
  obtain ⟨c, -, rfl⟩ := h1
  exact allowedChar_hyphenate _

theorem dropWhile_eq_self_of_all {p : Char → Bool} {l : List Char}
    (h : ∀ x ∈ l, p x = false) : l.dropWhile p = l :=
  dropWhile_eq_self_of_head (fun y hy => h y (List.mem_of_mem_head? hy))

theorem dWR_eq_self_of_all {p : Char → Bool} {l : List Char}
    (h : ∀ x ∈ l, p x = false) : dropWhileRight p l = l := by
  unfold dropWhileRight
  rw [dropWhile_eq_self_of_all (fun x hx => h x (List.mem_reverse.mp hx)),
    List.reverse_reverse]

theorem stripOneLeading_eq_self_of_head {l : List Char}
    (h : ∀ y, l.head? = some y → ¬y = '-') : stripOneLeading l = l := by
  cases l with
  | nil => rfl
  | cons c t =>
    show (if c = '-' then t else c :: t) = c :: t
    rw [if_neg (h c rfl)]

theorem NoDouble_stripOneTrailing {l : List Char} (h : NoDouble l) :
    NoDouble (stripOneTrailing l) := by
  unfold stripOneTrailing
  exact NoDouble_reverse (NoDouble_stripOneLeading (NoDouble_reverse h))

/-- C4: `normalizePackageName` computes exactly the claim's pipeline
(lowercase, run-replacement outside `[a-z0-9-_]` by a single hyphen, hyphen
collapsing, edge stripping, fixed fallback); its output always matches
`[a-z0-9-_]+` or is the fallback `"bun-app"`; and on `"My App!"` it yields
`"my-app"`. -/
theorem normalizePackageName_spec (s : String) :
    normalizePackageName s = claimNormalizePackageName s ∧
    (((normalizePackageName s).toList.all allowedChar = true ∧
        0 < (normalizePackageName s).toList.length) ∨
      normalizePackageName s = "bun-app") ∧
    normalizePackageName "My App!" = "my-app" := by
  refine ⟨normalizePackageName_eq_claim s, ?_, by rfl⟩
  rw [normalizePackageName_eq_claim s]
  simp only [claimNormalizePackageName]
  set step := stripAllHyphens (collapseHyphens
    (s.toList.map (fun c => hyphenate (toLowerJs c)))) with hstep
  by_cases he : step.isEmpty
  · rw [if_pos he]
    exact Or.inr rfl
  · rw [if_neg he]
    left
    constructor
    · rw [List.all_eq_true]
      intro x hx
      exact step_all_allowed s x (by simpa [toList_mk] using hx)
    · have hne : step ≠ [] := by simpa [List.isEmpty_iff] using he
      rw [toList_mk]
      exact List.length_pos.mpr hne

/-- C5: `normalizePackageName` is idempotent. -/
theorem normalizePackageName_idempotent (s : String) :
    normalizePackageName (normalizePackageName s) = normalizePackageName s := by
  have hcl := normalizePackageName_eq_claim s
  set step := stripAllHyphens (collapseHyphens
    (s.toList.map (fun c => hyphenate (toLowerJs c)))) with hstep
  by_cases he : step.isEmpty
  · have hb : normalizePackageName s = "bun-app" := by
      rw [hcl]
      simp only [claimNormalizePackageName]
      rw [← hstep, if_pos he]
    rw [hb]
    rfl
  · have hr : normalizePackageName s = ⟨step⟩ := by
      rw [hcl]
      simp only [claimNormalizePackageName]
      rw [← hstep, if_neg he]
    have hall : ∀ x ∈ step, allowedChar x = true := step_all_allowed s
    have hnd0 : NoDouble (collapseHyphens
        (s.toList.map (fun c => hyphenate (toLowerJs c)))) :=
      collapseHyphens_noDouble _
    have hnd : NoDouble step := by
      rw [hstep, ← stripEdge_eq_stripAll_of_noDouble hnd0]
      exact NoDouble_stripOneTrailing (NoDouble_stripOneLeading hnd0)
    have hhead : ∀ y, step.head? = some y → ¬y = '-' := by
      intro y hy
      have hstep2 : step = (dropWhileRight isHyphen (collapseHyphens
          (s.toList.map (fun c => hyphenate (toLowerJs c))))).dropWhile isHyphen := by
        rw [hstep]
        unfold stripAllHyphens
        rw [← dropWhile_dWR_comm]
      rw [hstep2] at hy
      have hb := dropWhile_head_not hy
      simpa [isHyphen] using hb
    have hrev : ∀ y, step.reverse.head? = some y → ¬y = '-' := by
      intro y hy
      have hstep3 : step.reverse = ((collapseHyphens
          (s.toList.map (fun c => hyphenate (toLowerJs c)))).dropWhile
            isHyphen).reverse.dropWhile isHyphen := by
        rw [hstep]
        unfold stripAllHyphens dropWhileRight
        rw [List.reverse_reverse]
      rw [hstep3] at hy
      have hb := dropWhile_head_not hy
      simpa [isHyphen] using hb
    have h1 : jsTrimList step = step := by
      unfold jsTrimList
      rw [dropWhile_eq_self_of_all (fun x hx => not_ws_of_allowed (hall x hx)),
        dWR_eq_self_of_all (fun x hx => not_ws_of_allowed (hall x hx))]
    have h2 : step.map (fun c => hyphenate (toLowerJs c)) = step := by
      have hid : ∀ x ∈ step, hyphenate (toLowerJs x) = x := fun x hx => by
        rw [toLowerJs_of_allowed (hall x hx), hyphenate_of_allowed (hall x hx)]
      calc step.map (fun c => hyphenate (toLowerJs c)) = step.map id :=
            List.map_congr_left hid
        _ = step := List.map_id step
    have h3 : collapseHyphens step = step := collapseHyphens_eq_self hnd
    have h4 : stripOneLeading step = step := stripOneLeading_eq_self_of_head hhead
    have h5 : stripOneTrailing step = step := by
      unfold stripOneTrailing
      rw [stripOneLeading_eq_self_of_head hrev, List.reverse_reverse]
    have hne : ¬step.isEmpty = true := he
    rw [hr]
    show normalizePackageName ⟨step⟩ = ⟨step⟩
    simp only [normalizePackageName]
    rw [toList_mk, h1, h2, h3]
    unfold stripEdgeHyphens
    rw [h4, h5, if_neg hne]

/-! ### C8: `isDirectoryEmpty` -/

/-- C8: `isDirectoryEmpty` returns `true` for an empty listing and for a
missing path (`ENOENT` counts as empty), propagates any other filesystem
error, and returns `false` for a non-empty listing. -/
theorem isDirectoryEmpty_spec (fs : Fs) (dir : String) :
    (fs.readdir dir = .ok [] → isDirectoryEmpty fs dir = .ok true) ∧
    (fs.readdir dir = .error .enoent → isDirectoryEmpty fs dir = .ok true) ∧
    (∀ msg, fs.readdir dir = .error (.other msg) →
      isDirectoryEmpty fs dir = .error (.other msg)) ∧
    (∀ e es, fs.readdir dir = .ok (e :: es) → isDirectoryEmpty fs dir = .ok false) := by
  refine ⟨fun h => ?_, fun h => ?_, fun msg h => ?_, fun e es h => ?_⟩ <;>
    simp [isDirectoryEmpty, h]

/-! ### C3: token substitution -/

theorem getSubstitution_no_dollar : ∀ {rep : List Char}, (∀ x ∈ rep, ¬x = '$') →
    ∀ (matched before after : List Char),
    getSubstitution matched before after rep = rep
  | [], _, _, _, _ => rfl
  | c :: rest, h, matched, before, after => by
    have hc : ¬c = '$' := h c (List.mem_cons_self c rest)
    have ih := getSubstitution_no_dollar
      (fun x hx => h x (List.mem_cons_of_mem c hx)) matched before after
    cases rest with
    | nil =>
      simp only [getSubstitution]
      rw [if_neg hc]
    | cons d rest2 =>
      simp only [getSubstitution]
      rw [if_neg hc, ih]

theorem replaceAllAux_no_dollar {rep : List Char} (h : ∀ x ∈ rep, ¬x = '$')
    (pat orig : List Char) : ∀ (fuel pos : Nat) (l : List Char),
    replaceAllAux pat rep orig fuel pos l = claimReplaceAllAux pat rep fuel l
  | fuel, pos, [] => by cases fuel <;> rfl
  | 0, pos, c :: rest => rfl
  | fuel + 1, pos, c :: rest => by
    simp only [replaceAllAux, claimReplaceAllAux]
    by_cases hp : pat.isPrefixOf (c :: rest) = true
    · rw [if_pos hp, if_pos hp,
        getSubstitution_no_dollar h pat (orig.take pos) (orig.drop (pos + pat.length)),
        replaceAllAux_no_dollar h pat orig fuel (pos + pat.length)
          ((c :: rest).drop pat.length)]
    · rw [if_neg hp, if_neg hp,
        replaceAllAux_no_dollar h pat orig fuel (pos + 1) rest]

/-- A replacement string without a dollar is inserted literally: on it the
JS substitution and the claim's literal substitution agree. -/
theorem replaceAll_no_dollar {rep : String} (h : ∀ x ∈ rep.toList, ¬x = '$')
    (s pat : String) : replaceAll s pat rep = claimReplaceAll s pat rep := by
  unfold replaceAll claimReplaceAll
  exact congrArg String.mk
    (replaceAllAux_no_dollar h pat.toList s.toList s.toList.length 0 s.toList)

/-- The normalized package name never contains a dollar. -/
theorem normalizePackageName_no_dollar (p : String) :
    ∀ x ∈ (normalizePackageName p).toList, ¬x = '$' := by
  intro x hx
  rw [normalizePackageName_eq_claim] at hx
  simp only [claimNormalizePackageName] at hx
  by_cases he : (stripAllHyphens (collapseHyphens
      (p.toList.map (fun c => hyphenate (toLowerJs c))))).isEmpty
  · rw [if_pos he] at hx
    intro hd
    subst hd
    revert hx
    decide
  · rw [if_neg he, toList_mk] at hx
    have hal := step_all_allowed p x hx
    intro hd
    subst hd
    exact absurd hal (by decide)

theorem applyTemplateTokens_get (files : List (String × String)) (projectName : String)
    (i : Nat) (h : i < files.length)
    (hi : i < (applyTemplateTokens files projectName).length) :
    (applyTemplateTokens files projectName).get ⟨i, hi⟩ =
      if isTemplateFile (files.get ⟨i, h⟩).1 then
        { path := (files.get ⟨i, h⟩).1,
          content := substituteTokens (files.get ⟨i, h⟩).2 projectName
            (normalizePackageName projectName),
          written := decide (¬substituteTokens (files.get ⟨i, h⟩).2 projectName
            (normalizePackageName projectName) = (files.get ⟨i, h⟩).2) }
      else
        { path := (files.get ⟨i, h⟩).1, content := (files.get ⟨i, h⟩).2,
          written := false } := by
  simp [applyTemplateTokens, List.get_eq_getElem, List.getElem_map]

/-- C3 (amended): token substitution rewrites exactly the files whose
extension is in the text set or whose name ends in `".gitignore"`: those get
every occurrence of the project-name token replaced via JS `replaceAll`
(which applies the `GetSubstitution` dollar escapes to the project name; a
project name free of dollars is inserted literally) and every occurrence of
the package-name token replaced with the normalized package name (which
never contains a dollar, hence is always inserted literally), written back
only when the content changed; every other file is left byte-identical and
never written. -/
theorem applyTemplateTokens_spec (files : List (String × String)) (projectName : String)
    (i : Nat) (h : i < files.length) :
    (applyTemplateTokens files projectName).length = files.length ∧
    (∀ content : String,
      replaceAll content "__PACKAGE_NAME__" (normalizePackageName projectName) =
        claimReplaceAll content "__PACKAGE_NAME__" (normalizePackageName projectName)) ∧
    (projectName.toList.all (fun c => !(c == '$')) = true →
      ∀ content : String,
        substituteTokens content projectName (normalizePackageName projectName) =
          claimSubstituteTokens content projectName (normalizePackageName projectName)) ∧
    ∃ hi : i < (applyTemplateTokens files projectName).length,
      ((applyTemplateTokens files projectName).get ⟨i, hi⟩).path = (files.get ⟨i, h⟩).1 ∧
      (isTemplateFile (files.get ⟨i, h⟩).1 = true →
        ((applyTemplateTokens files projectName).get ⟨i, hi⟩).content =
          substituteTokens (files.get ⟨i, h⟩).2 projectName
            (normalizePackageName projectName) ∧
        (((applyTemplateTokens files projectName).get ⟨i, hi⟩).written = true ↔
          ¬((applyTemplateTokens files projectName).get ⟨i, hi⟩).content =
            (files.get ⟨i, h⟩).2)) ∧
      (isTemplateFile (files.get ⟨i, h⟩).1 = false →
        ((applyTemplateTokens files projectName).get ⟨i, hi⟩).content =
          (files.get ⟨i, h⟩).2 ∧
        ((applyTemplateTokens files projectName).get ⟨i, hi⟩).written = false) := by
  have hlen : (applyTemplateTokens files projectName).length = files.length := by
    simp [applyTemplateTokens]
  have hi : i < (applyTemplateTokens files projectName).length := by omega
  refine ⟨hlen, ?_, ?_, hi, ?_⟩
  · intro content
    exact replaceAll_no_dollar (normalizePackageName_no_dollar projectName)
      content "__PACKAGE_NAME__"
  · intro hnd content
    have hproj : ∀ x ∈ projectName.toList, ¬x = '$' := by
      intro x hx
      simpa using List.all_eq_true.mp hnd x hx
    unfold substituteTokens claimSubstituteTokens
    rw [replaceAll_no_dollar hproj content "__PROJECT_NAME__",
      replaceAll_no_dollar (normalizePackageName_no_dollar projectName) _
        "__PACKAGE_NAME__"]
  rw [applyTemplateTokens_get files projectName i h hi]
  by_cases ht : isTemplateFile (files.get ⟨i, h⟩).1 = true
  · rw [if_pos ht]
    refine ⟨rfl, fun _ => ⟨rfl, ?_⟩, fun hf => by rw [ht] at hf; exact Bool.noConfusion hf⟩
    simp
  · rw [if_neg ht]
    exact ⟨rfl, fun htr => absurd htr ht, fun _ => ⟨rfl, rfl⟩⟩

/-! ### C6: mutual exclusion in the argument parser -/

theorem jsStartsWith_dash_of {a pre : String} (h : jsStartsWith a pre = true)
    (hp : pre.toList.head? = some '-') : jsStartsWith a "-" = true := by
  unfold jsStartsWith at h ⊢
  rw [List.isPrefixOf_iff_prefix] at h ⊢
  cases hl : pre.toList with
  | nil => rw [hl] at hp; simp at hp
  | cons c t =>
    rw [hl] at hp h
    have hc : c = '-' := by simpa using hp
    subst hc
    exact List.IsPrefix.trans ⟨t, rfl⟩ h

/-- C6: a successful parse never carries both a positional project name and a
path value (supplying both is rejected after the loop); a second positional
argument is rejected inside the loop, as is a second `--path` option. -/
theorem parseArgs_exclusivity :
    (∀ argv o, parseArgs argv = .ok o →
      ¬(o.projectNameArg ≠ none ∧ o.pathArg ≠ none)) ∧
    (∀ o rest a n, jsStartsWith a "-" = false → o.projectNameArg = some n →
      parseLoop o (a :: rest) = .error "Only one project name can be provided.") ∧
    (∀ o rest v p, jsStartsWith v "-" = false → (jsTrim v).length ≠ 0 →
      o.pathArg = some p →
      parseLoop o ("--path" :: v :: rest) = .error "Path can only be provided once.") := by
  refine ⟨?_, ?_, ?_⟩
  · intro argv o h
    unfold parseArgs at h
    cases hm : parseLoop initialCliOptions argv with
    | error e => rw [hm] at h; exact absurd h (by simp)
    | ok o2 =>
      rw [hm] at h
      by_cases hb : o2.projectNameArg ≠ none ∧ o2.pathArg ≠ none
      · simp [hb] at h
      · simp [hb] at h
        subst h
        exact hb
  · intro o rest a n ha hn
    have hd : ¬jsStartsWith a "-" = true := by simp [ha]
    have h1 : ¬(a = "--help" ∨ a = "-h") := by
      rintro (rfl | rfl) <;> exact hd (by decide)
    have h2 : ¬(a = "--version" ∨ a = "-v") := by
      rintro (rfl | rfl) <;> exact hd (by decide)
    have h3 : ¬(a = "--force" ∨ a = "-f") := by
      rintro (rfl | rfl) <;> exact hd (by decide)
    have h4 : ¬a = "--no-install" := by
      rintro rfl; exact hd (by decide)
    have h5 : ¬(a = "--path" ∨ a = "-p") := by
      rintro (rfl | rfl) <;> exact hd (by decide)
    have h6 : ¬(jsStartsWith a "--path=" = true ∨ jsStartsWith a "-p=" = true) := by
      rintro (hq | hq) <;> exact hd (jsStartsWith_dash_of hq (by decide))
    have h8 : o.projectNameArg ≠ none := by simp [hn]
    cases rest with
    | nil =>
      simp only [parseLoop]
      rw [if_neg h1, if_neg h2, if_neg h3, if_neg h4, if_neg h5, if_neg h6,
        if_neg hd, if_pos h8]
    | cons b rest2 =>
      simp only [parseLoop]
      rw [if_neg h1, if_neg h2, if_neg h3, if_neg h4, if_neg h5, if_neg h6,
        if_neg hd, if_pos h8]
  · intro o rest v p hv hlen hp
    have hps : o.pathArg ≠ none := by simp [hp]
    have hvd : ¬jsStartsWith v "-" = true := by simp [hv]
    simp only [parseLoop]
    rw [if_neg (by decide : ¬(("--path" : String) = "--help" ∨ ("--path" : String) = "-h")),
      if_neg (by decide : ¬(("--path" : String) = "--version" ∨ ("--path" : String) = "-v")),
      if_neg (by decide : ¬(("--path" : String) = "--force" ∨ ("--path" : String) = "-f")),
      if_neg (by decide : ¬(("--path" : String) = "--no-install"))]
    rw [if_pos (Or.inl trivial : True ∨ ("--path" : String) = "-p")]
    rw [if_neg hvd, if_neg hlen, if_pos hps]

/-! ### C10: project name is the basename of the resolved target -/

/-- C10: for both the `--path` option and the positional argument, the CLI
resolves the argument against the working directory and takes the project
name as the basename of the resolved target; in particular `foo/bar`
scaffolds into that subpath with project name `"bar"`, not `"foo/bar"`. -/
theorem cli_projectName_basename :
    (∀ cwd o t n, cliTargetAndName cwd o = some (t, n) → n = basename t) ∧
    cliTargetAndName "/home/user"
      { initialCliOptions with projectNameArg := some "foo/bar" } =
      some ("/home/user/foo/bar", "bar") ∧
    ("bar" : String) ≠ "foo/bar" := by
  refine ⟨?_, by rfl, by decide⟩
  intro cwd o t n h
  unfold cliTargetAndName at h
  cases hp : o.pathArg with
  | some p =>
    rw [hp] at h
    simp only [Option.some.injEq, Prod.mk.injEq] at h
    rw [← h.1, ← h.2]
  | none =>
    rw [hp] at h
    cases hq : o.projectNameArg with
    | some q =>
      rw [hq] at h
      simp only [Option.some.injEq, Prod.mk.injEq] at h
      rw [← h.1, ← h.2]
    | none => rw [hq] at h; exact absurd h (by simp)

/-! ### Branch-shape lemmas for the scaffold orchestrator -/

theorem scaffoldProject_empty_name (env : ScaffoldEnv) (options : ScaffoldOptions)
    (hname : (jsTrim options.projectName).length = 0) :
    scaffoldProject env options = (.error "Project name must not be empty.", []) := by
  simp [scaffoldProject, hname]

theorem scaffoldProject_read_error (env : ScaffoldEnv) (options : ScaffoldOptions)
    (e : FsError) (hname : (jsTrim options.projectName).length ≠ 0)
    (hde : isDirectoryEmpty env.fs (resolvePath env.cwd options.targetDir) = .error e) :
    scaffoldProject env options = (.error (fsErrorMessage e), []) := by
  simp [scaffoldProject, hname, hde]

theorem scaffoldProject_not_empty (env : ScaffoldEnv) (options : ScaffoldOptions)
    (hname : (jsTrim options.projectName).length ≠ 0)
    (hde : isDirectoryEmpty env.fs (resolvePath env.cwd options.targetDir) = .ok false)
    (hforce : options.force.getD false = false) :
    scaffoldProject env options =
      (.error (notEmptyMessage (resolvePath env.cwd options.targetDir)), []) := by
  simp [scaffoldProject, hname, hde, hforce]

theorem scaffoldProject_main_shape (env : ScaffoldEnv) (options : ScaffoldOptions)
    (isEmpty : Bool) (hname : (jsTrim options.projectName).length ≠ 0)
    (hde : isDirectoryEmpty env.fs (resolvePath env.cwd options.targetDir) = .ok isEmpty)
    (hcond : ¬((!isEmpty && !(options.force.getD false)) = true)) :
    scaffoldProject env options =
      ((scaffoldBody env (resolvePath env.cwd options.targetDir)
          (jsTrim options.projectName) (options.install.getD true)
          (options.templateRepo.getD DEFAULT_TEMPLATE_REPO)
          (stagingDirOf env (resolvePath env.cwd options.targetDir))).1,
        [FsEvent.mkdirp (resolvePath env.cwd options.targetDir),
          FsEvent.mkdtemp (stagingDirOf env (resolvePath env.cwd options.targetDir))] ++
          (scaffoldBody env (resolvePath env.cwd options.targetDir)
            (jsTrim options.projectName) (options.install.getD true)
            (options.templateRepo.getD DEFAULT_TEMPLATE_REPO)
            (stagingDirOf env (resolvePath env.cwd options.targetDir))).2 ++
          [FsEvent.rmrf (stagingDirOf env (resolvePath env.cwd options.targetDir))]) := by
  simp [scaffoldProject, hname, hde, hcond]

theorem scaffoldBody_clone_fail (env : ScaffoldEnv) (T P : String) (install : Bool)
    (repo S : String) (hc : env.cloneExitCode ≠ 0) :
    scaffoldBody env T P install repo S =
      (.error (cloneErrorMessage env.cloneExitCode env.cloneStderr),
        [.gitClone repo S]) := by
  simp [scaffoldBody, hc]

theorem scaffoldBody_cp_fail (env : ScaffoldEnv) (T P : String) (install : Bool)
    (repo S msg : String) (hc : env.cloneExitCode = 0) (hcp : env.cpError = some msg) :
    scaffoldBody env T P install repo S =
      (.error msg, [.gitClone repo S, .rmrf (resolvePath S ".git")]) := by
  simp [scaffoldBody, hc, hcp]

theorem scaffoldBody_token_fail (env : ScaffoldEnv) (T P : String) (install : Bool)
    (repo S msg : String) (hc : env.cloneExitCode = 0) (hcp : env.cpError = none)
    (htk : env.tokenError = some msg) :
    scaffoldBody env T P install repo S =
      (.error msg,
        [.gitClone repo S, .rmrf (resolvePath S ".git"), .copyTree S T]) := by
  simp [scaffoldBody, hc, hcp, htk]

theorem scaffoldBody_no_install (env : ScaffoldEnv) (T P repo S : String)
    (hc : env.cloneExitCode = 0) (hcp : env.cpError = none) (htk : env.tokenError = none) :
    scaffoldBody env T P false repo S =
      (.ok ⟨env.templateFiles.map (fun rel => resolvePath T rel), false, P, T⟩,
        [.gitClone repo S, .rmrf (resolvePath S ".git"), .copyTree S T,
          .rewriteTokens (env.templateFiles.map (fun rel => resolvePath T rel)) P]) := by
  simp [scaffoldBody, hc, hcp, htk]

theorem scaffoldBody_install_fail (env : ScaffoldEnv) (T P repo S : String)
    (hc : env.cloneExitCode = 0) (hcp : env.cpError = none) (htk : env.tokenError = none)
    (hie : env.installExitCode ≠ 0) :
    scaffoldBody env T P true repo S =
      (.error (installErrorMessage env.installExitCode),
        [.gitClone repo S, .rmrf (resolvePath S ".git"), .copyTree S T,
          .rewriteTokens (env.templateFiles.map (fun rel => resolvePath T rel)) P,
          .runInstall T]) := by
  simp [scaffoldBody, hc, hcp, htk, hie]

theorem scaffoldBody_install_ok (env : ScaffoldEnv) (T P repo S : String)
    (hc : env.cloneExitCode = 0) (hcp : env.cpError = none) (htk : env.tokenError = none)
    (hie : env.installExitCode = 0) :
    scaffoldBody env T P true repo S =
      (.ok ⟨env.templateFiles.map (fun rel => resolvePath T rel), true, P, T⟩,
        [.gitClone repo S, .rmrf (resolvePath S ".git"), .copyTree S T,
          .rewriteTokens (env.templateFiles.map (fun rel => resolvePath T rel)) P,
          .runInstall T]) := by
  simp [scaffoldBody, hc, hcp, htk, hie]

theorem scaffoldBody_no_mkdtemp (env : ScaffoldEnv) (T P : String) (install : Bool)
    (repo S d : String) :
    FsEvent.mkdtemp d ∉ (scaffoldBody env T P install repo S).2 := by
  by_cases hc : env.cloneExitCode = 0
  · rcases hcp : env.cpError with _ | msg
    · rcases htk : env.tokenError with _ | msg2
      · cases install
        · rw [scaffoldBody_no_install env T P repo S hc hcp htk]
          simp
        · by_cases hie : env.installExitCode = 0
          · rw [scaffoldBody_install_ok env T P repo S hc hcp htk hie]
            simp
          · rw [scaffoldBody_install_fail env T P repo S hc hcp htk hie]
            simp
      · rw [scaffoldBody_token_fail env T P install repo S msg2 hc hcp htk]
        simp
    · rw [scaffoldBody_cp_fail env T P install repo S msg hc hcp]
      simp
  · rw [scaffoldBody_clone_fail env T P install repo S hc]
    simp

theorem gitClone_mem_scaffoldBody (env : ScaffoldEnv) (T P : String) (install : Bool)
    (repo S : String) :
    FsEvent.gitClone repo S ∈ (scaffoldBody env T P install repo S).2 := by
  by_cases hc : env.cloneExitCode = 0
  · rcases hcp : env.cpError with _ | msg
    · rcases htk : env.tokenError with _ | msg2
      · cases install
        · rw [scaffoldBody_no_install env T P repo S hc hcp htk]
          simp
        · by_cases hie : env.installExitCode = 0
          · rw [scaffoldBody_install_ok env T P repo S hc hcp htk hie]
            simp
          · rw [scaffoldBody_install_fail env T P repo S hc hcp htk hie]
            simp
      · rw [scaffoldBody_token_fail env T P install repo S msg2 hc hcp htk]
        simp
    · rw [scaffoldBody_cp_fail env T P install repo S msg hc hcp]
      simp
  · rw [scaffoldBody_clone_fail env T P install repo S hc]
    simp

/-! ### C1: non-empty target without force fails before any write -/

theorem toList_append (a b : String) : (a ++ b).toList = a.toList ++ b.toList :=
  String.data_append a b

/-- C1: when the target directory's listing is non-empty and force is off
(false or omitted), `scaffoldProject` returns the "not empty" error — whose
text contains `"not empty"` and the resolved target path — and its event
trace is empty: nothing is created, copied or written. -/
theorem scaffold_nonempty_no_force_fails (env : ScaffoldEnv) (options : ScaffoldOptions)
    (e : String) (es : List String)
    (hread : env.fs.readdir (resolvePath env.cwd options.targetDir) = .ok (e :: es))
    (hforce : options.force.getD false = false)
    (hname : (jsTrim options.projectName).length ≠ 0) :
    scaffoldProject env options =
      (.error (notEmptyMessage (resolvePath env.cwd options.targetDir)), []) ∧
    (∃ pre post : List Char,
      (notEmptyMessage (resolvePath env.cwd options.targetDir)).toList =
        pre ++ ("not empty" : String).toList ++ post) ∧
    (∃ pre post : List Char,
      (notEmptyMessage (resolvePath env.cwd options.targetDir)).toList =
        pre ++ (resolvePath env.cwd options.targetDir).toList ++ post) := by
  refine ⟨?_, ?_, ?_⟩
  · have hde : isDirectoryEmpty env.fs (resolvePath env.cwd options.targetDir) =
        .ok false := by
      simp [isDirectoryEmpty, hread]
    exact scaffoldProject_not_empty env options hname hde hforce
  · refine ⟨("Target directory is " : String).toList,
      (": " : String).toList ++ (resolvePath env.cwd options.targetDir).toList ++
        (". Use --force to overwrite." : String).toList, ?_⟩
    show (("Target directory is not empty: " : String) ++
      resolvePath env.cwd options.targetDir ++
      (". Use --force to overwrite." : String)).toList = _
    rw [toList_append, toList_append]
    rw [show ("Target directory is not empty: " : String).toList =
      ("Target directory is " : String).toList ++ ("not empty" : String).toList ++
        (": " : String).toList by decide]
    simp [List.append_assoc]
  · refine ⟨("Target directory is not empty: " : String).toList,
      (". Use --force to overwrite." : String).toList, ?_⟩
    show (("Target directory is not empty: " : String) ++
      resolvePath env.cwd options.targetDir ++
      (". Use --force to overwrite." : String)).toList = _
    rw [toList_append, toList_append]

/-! ### C2: the staging directory is always removed -/

/-- C2: whenever a run of `scaffoldProject` creates the staging directory
(an `mkdtemp` event appears in its trace), the very last event of the trace
removes that same directory — on the success path and on every failure path
past its creation. -/
theorem staging_always_cleaned (env : ScaffoldEnv) (options : ScaffoldOptions)
    (d : String) (h : FsEvent.mkdtemp d ∈ (scaffoldProject env options).2) :
    ∃ pre, (scaffoldProject env options).2 = pre ++ [FsEvent.rmrf d] := by
  by_cases hname : (jsTrim options.projectName).length = 0
  · rw [scaffoldProject_empty_name env options hname] at h
    exact absurd h (by simp)
  · cases hde : isDirectoryEmpty env.fs (resolvePath env.cwd options.targetDir) with
    | error e =>
      rw [scaffoldProject_read_error env options e hname hde] at h
      exact absurd h (by simp)
    | ok isEmpty =>
      by_cases hcond : (!isEmpty && !(options.force.getD false)) = true
      · have hfalse : isEmpty = false := by
          cases isEmpty
          · rfl
          · simp at hcond
        have hforce : options.force.getD false = false := by
          cases hf : options.force.getD false
          · rfl
          · rw [hfalse, hf] at hcond
            simp at hcond
        rw [scaffoldProject_not_empty env options hname (hfalse ▸ hde) hforce] at h
        exact absurd h (by simp)
      · rw [scaffoldProject_main_shape env options isEmpty hname hde hcond] at h ⊢
        have hd : d = stagingDirOf env (resolvePath env.cwd options.targetDir) := by
          rcases List.mem_append.mp h with h1 | h2
          · rcases List.mem_append.mp h1 with h3 | h4
            · rcases List.mem_cons.mp h3 with h5 | h6
              · exact FsEvent.noConfusion h5
              · rw [List.mem_singleton] at h6
                injection h6
            · exact absurd h4 (scaffoldBody_no_mkdtemp env _ _ _ _ _ d)
          · rw [List.mem_singleton] at h2
            exact FsEvent.noConfusion h2
        rw [hd]
        exact ⟨_, rfl⟩

theorem scaffoldProject_shape_cases (env : ScaffoldEnv) (options : ScaffoldOptions) :
    (∃ msg, scaffoldProject env options = (.error msg, [])) ∨
    (∃ isEmpty, isDirectoryEmpty env.fs (resolvePath env.cwd options.targetDir) =
        .ok isEmpty ∧
      scaffoldProject env options =
        ((scaffoldBody env (resolvePath env.cwd options.targetDir)
            (jsTrim options.projectName) (options.install.getD true)
            (options.templateRepo.getD DEFAULT_TEMPLATE_REPO)
            (stagingDirOf env (resolvePath env.cwd options.targetDir))).1,
          [FsEvent.mkdirp (resolvePath env.cwd options.targetDir),
            FsEvent.mkdtemp (stagingDirOf env (resolvePath env.cwd options.targetDir))] ++
            (scaffoldBody env (resolvePath env.cwd options.targetDir)
              (jsTrim options.projectName) (options.install.getD true)
              (options.templateRepo.getD DEFAULT_TEMPLATE_REPO)
              (stagingDirOf env (resolvePath env.cwd options.targetDir))).2 ++
            [FsEvent.rmrf (stagingDirOf env
              (resolvePath env.cwd options.targetDir))])) := by
  by_cases hname : (jsTrim options.projectName).length = 0
  · exact Or.inl ⟨_, scaffoldProject_empty_name env options hname⟩
  · cases hde : isDirectoryEmpty env.fs (resolvePath env.cwd options.targetDir) with
    | error e => exact Or.inl ⟨_, scaffoldProject_read_error env options e hname hde⟩
    | ok isEmpty =>
      by_cases hcond : (!isEmpty && !(options.force.getD false)) = true
      · have hfalse : isEmpty = false := by
          cases isEmpty
          · rfl
          · simp at hcond
        have hforce : options.force.getD false = false := by
          cases hf : options.force.getD false
          · rfl
          · rw [hfalse, hf] at hcond
            simp at hcond
        exact Or.inl ⟨_, scaffoldProject_not_empty env options hname
          (hfalse ▸ hde) hforce⟩
      · exact Or.inr ⟨isEmpty, rfl,
          scaffoldProject_main_shape env options isEmpty hname hde hcond⟩

theorem scaffoldBody_false_no_install (env : ScaffoldEnv) (T P repo S d : String) :
    FsEvent.runInstall d ∉ (scaffoldBody env T P false repo S).2 := by
  by_cases hc : env.cloneExitCode = 0
  · rcases hcp : env.cpError with _ | msg
    · rcases htk : env.tokenError with _ | msg2
      · rw [scaffoldBody_no_install env T P repo S hc hcp htk]
        simp
      · rw [scaffoldBody_token_fail env T P false repo S msg2 hc hcp htk]
        simp
    · rw [scaffoldBody_cp_fail env T P false repo S msg hc hcp]
      simp
  · rw [scaffoldBody_clone_fail env T P false repo S hc]
    simp

theorem scaffoldBody_false_result (env : ScaffoldEnv) (T P repo S : String)
    (r : ScaffoldResult) (hr : (scaffoldBody env T P false repo S).1 = .ok r) :
    r.installedDependencies = false := by
  by_cases hc : env.cloneExitCode = 0
  · rcases hcp : env.cpError with _ | msg
    · rcases htk : env.tokenError with _ | msg2
      · rw [scaffoldBody_no_install env T P repo S hc hcp htk] at hr
        have hres : (⟨env.templateFiles.map (fun rel => resolvePath T rel),
            false, P, T⟩ : ScaffoldResult) = r := by
          simpa using hr
        rw [← hres]
      · rw [scaffoldBody_token_fail env T P false repo S msg2 hc hcp htk] at hr
        exact absurd hr (by simp)
    · rw [scaffoldBody_cp_fail env T P false repo S msg hc hcp] at hr
      exact absurd hr (by simp)
  · rw [scaffoldBody_clone_fail env T P false repo S hc] at hr
    exact absurd hr (by simp)

/-! ### C7: the install step -/

/-- C7: when installation is switched off the install command never appears
in the trace and a successful result reports `installedDependencies = false`;
when installation is requested and the command exits non-zero (all earlier
steps succeeding), the run fails with the error carrying that exit code,
having invoked the install command in the resolved target directory. -/
theorem install_step_spec :
    (∀ env options, options.install = some false →
      (∀ d, FsEvent.runInstall d ∉ (scaffoldProject env options).2) ∧
      (∀ r, (scaffoldProject env options).1 = .ok r →
        r.installedDependencies = false)) ∧
    (∀ env options,
      options.install.getD true = true →
      env.cloneExitCode = 0 → env.cpError = none → env.tokenError = none →
      env.installExitCode ≠ 0 →
      (jsTrim options.projectName).length ≠ 0 →
      isDirectoryEmpty env.fs (resolvePath env.cwd options.targetDir) = .ok true →
      (scaffoldProject env options).1 =
        .error (installErrorMessage env.installExitCode) ∧
      FsEvent.runInstall (resolvePath env.cwd options.targetDir) ∈
        (scaffoldProject env options).2) := by
  constructor
  · intro env options hinst
    have hGD : options.install.getD true = false := by rw [hinst]; rfl
    rcases scaffoldProject_shape_cases env options with ⟨msg, hsh⟩ | ⟨isEmpty, hde, hsh⟩
    · constructor
      · intro d hmem
        rw [hsh] at hmem
        exact absurd hmem (by simp)
      · intro r hr
        rw [hsh] at hr
        exact absurd hr (by simp)
    · constructor
      · intro d hmem
        rw [hsh, hGD] at hmem
        rcases List.mem_append.mp hmem with h1 | h2
        · rcases List.mem_append.mp h1 with h3 | h4
          · rcases List.mem_cons.mp h3 with h5 | h6
            · exact FsEvent.noConfusion h5
            · rw [List.mem_singleton] at h6
              exact FsEvent.noConfusion h6
          · exact absurd h4 (scaffoldBody_false_no_install env _ _ _ _ d)
        · rw [List.mem_singleton] at h2
          exact FsEvent.noConfusion h2
      · intro r hr
        rw [hsh, hGD] at hr
        exact scaffoldBody_false_result env _ _ _ _ r hr
  · intro env options hinst hc hcp htk hie hname hde
    have hcond : ¬((!true && !(options.force.getD false)) = true) := by simp
    have hsh := scaffoldProject_main_shape env options true hname hde hcond
    rw [hsh, hinst, scaffoldBody_install_fail env _ _ _ _ hc hcp htk hie]
    constructor
    · rfl
    · simp

/-! ### C9: defaults of the omitted options -/

/-- C9: omitted options take the fixed defaults — with `install` omitted the
install command runs (default `true`); with `force` omitted a non-empty
target is rejected (default `false`); with `templateRepo` omitted the clone
uses the fixed default repository URL. -/
theorem scaffold_defaults :
    (∀ env options,
      options.install = none → env.cloneExitCode = 0 → env.cpError = none →
      env.tokenError = none →
      (jsTrim options.projectName).length ≠ 0 →
      isDirectoryEmpty env.fs (resolvePath env.cwd options.targetDir) = .ok true →
      FsEvent.runInstall (resolvePath env.cwd options.targetDir) ∈
        (scaffoldProject env options).2) ∧
    (∀ env options e es,
      options.force = none →
      env.fs.readdir (resolvePath env.cwd options.targetDir) = .ok (e :: es) →
      (jsTrim options.projectName).length ≠ 0 →
      (scaffoldProject env options).1 =
        .error (notEmptyMessage (resolvePath env.cwd options.targetDir))) ∧
    (∀ env options,
      options.templateRepo = none →
      (jsTrim options.projectName).length ≠ 0 →
      isDirectoryEmpty env.fs (resolvePath env.cwd options.targetDir) = .ok true →
      FsEvent.gitClone DEFAULT_TEMPLATE_REPO
        (stagingDirOf env (resolvePath env.cwd options.targetDir)) ∈
        (scaffoldProject env options).2) := by
  refine ⟨?_, ?_, ?_⟩
  · intro env options hinst hc hcp htk hname hde
    have hGD : options.install.getD true = true := by rw [hinst]; rfl
    have hcond : ¬((!true && !(options.force.getD false)) = true) := by simp
    have hsh := scaffoldProject_main_shape env options true hname hde hcond
    rw [hsh, hGD]
    by_cases hie : env.installExitCode = 0
    · rw [scaffoldBody_install_ok env _ _ _ _ hc hcp htk hie]
      simp
    · rw [scaffoldBody_install_fail env _ _ _ _ hc hcp htk hie]
      simp
  · intro env options e es hf hread hname
    have hforce : options.force.getD false = false := by rw [hf]; rfl
    have hde : isDirectoryEmpty env.fs (resolvePath env.cwd options.targetDir) =
        .ok false := by
      simp [isDirectoryEmpty, hread]
    rw [scaffoldProject_not_empty env options hname hde hforce]
  · intro env options ht hname hde
    have hrepo : options.templateRepo.getD DEFAULT_TEMPLATE_REPO =
        DEFAULT_TEMPLATE_REPO := by rw [ht]; rfl
    have hcond : ¬((!true && !(options.force.getD false)) = true) := by simp
    have hsh := scaffoldProject_main_shape env options true hname hde hcond
    rw [hsh, hrepo]
    exact List.mem_append.mpr (Or.inl (List.mem_append.mpr
      (Or.inr (gitClone_mem_scaffoldBody env _ _ _ _ _))))

/-! ### Witnesses: the claim theorems applied at concrete inputs -/

/-- C1's theorem evaluated on a concrete non-empty target without force. -/
theorem scaffold_nonempty_no_force_fails_witness :
    scaffoldProject witnessEnv witnessOptionsOther =
      (.error (notEmptyMessage
        (resolvePath witnessEnv.cwd witnessOptionsOther.targetDir)), []) ∧
    (∃ pre post : List Char,
      (notEmptyMessage
        (resolvePath witnessEnv.cwd witnessOptionsOther.targetDir)).toList =
        pre ++ ("not empty" : String).toList ++ post) ∧
    (∃ pre post : List Char,
      (notEmptyMessage
        (resolvePath witnessEnv.cwd witnessOptionsOther.targetDir)).toList =
        pre ++ (resolvePath witnessEnv.cwd witnessOptionsOther.targetDir).toList ++
          post) :=
  scaffold_nonempty_no_force_fails witnessEnv witnessOptionsOther "existing.txt" []
    (by rfl) (by decide) (by decide)

/-- C2's theorem evaluated on a concrete successful run. -/
theorem staging_always_cleaned_witness :
    ∃ pre, (scaffoldProject witnessEnv witnessOptions).2 =
      pre ++ [FsEvent.rmrf ("/h/.new-template-" ++ "Ab12Cd")] :=
  staging_always_cleaned witnessEnv witnessOptions ("/h/.new-template-" ++ "Ab12Cd")
    (by decide)

/-- C3's theorem evaluated on a template file and a binary file. -/
theorem applyTemplateTokens_spec_witness :
    (applyTemplateTokens witnessFiles "My App!").length = witnessFiles.length ∧
    (∀ content : String,
      replaceAll content "__PACKAGE_NAME__" (normalizePackageName "My App!") =
        claimReplaceAll content "__PACKAGE_NAME__" (normalizePackageName "My App!")) ∧
    (("My App!" : String).toList.all (fun c => !(c == '$')) = true →
      ∀ content : String,
        substituteTokens content "My App!" (normalizePackageName "My App!") =
          claimSubstituteTokens content "My App!" (normalizePackageName "My App!")) ∧
    ∃ hi : 0 < (applyTemplateTokens witnessFiles "My App!").length,
      ((applyTemplateTokens witnessFiles "My App!").get ⟨0, hi⟩).path =
        (witnessFiles.get ⟨0, by decide⟩).1 ∧
      (isTemplateFile (witnessFiles.get ⟨0, by decide⟩).1 = true →
        ((applyTemplateTokens witnessFiles "My App!").get ⟨0, hi⟩).content =
          substituteTokens (witnessFiles.get ⟨0, by decide⟩).2 "My App!"
            (normalizePackageName "My App!") ∧
        (((applyTemplateTokens witnessFiles "My App!").get ⟨0, hi⟩).written = true ↔
          ¬((applyTemplateTokens witnessFiles "My App!").get ⟨0, hi⟩).content =
            (witnessFiles.get ⟨0, by decide⟩).2)) ∧
      (isTemplateFile (witnessFiles.get ⟨0, by decide⟩).1 = false →
        ((applyTemplateTokens witnessFiles "My App!").get ⟨0, hi⟩).content =
          (witnessFiles.get ⟨0, by decide⟩).2 ∧
        ((applyTemplateTokens witnessFiles "My App!").get ⟨0, hi⟩).written = false) :=
  applyTemplateTokens_spec witnessFiles "My App!" 0 (by decide)

/-- C3 as originally stated fails on the program: with project name `"a$&b"`
the `GetSubstitution` escape `$&` re-expands to the matched token, so the
rewritten content is not the claim's literal substitution (which would be
`"a$&b"`). -/
theorem applyTemplateTokens_claim_counterexample :
    ((applyTemplateTokens [("/t/a.json", "__PROJECT_NAME__")] "a$&b").get
      ⟨0, by decide⟩).content = "a__PROJECT_NAME__b" ∧
    ¬((applyTemplateTokens [("/t/a.json", "__PROJECT_NAME__")] "a$&b").get
      ⟨0, by decide⟩).content =
      claimSubstituteTokens "__PROJECT_NAME__" "a$&b" (normalizePackageName "a$&b") ∧
    claimSubstituteTokens "__PROJECT_NAME__" "a$&b" (normalizePackageName "a$&b") =
      "a$&b" := by
  refine ⟨by rfl, ?_, by rfl⟩
  decide

end NewCli
